import Mathlib

/-!
Verification of the Ontario Tech registration bot
(`src/main_code/starting_code.py`) against its natural-language
specification.  The Python source is shallowly embedded below: the SQLite
tables become explicit lists of rows, the interactive/Selenium layer becomes
an oracle parameter (`AdapterResponse`), and Python's string/int functions
are modelled for ASCII input.
-/

namespace RegBot

/-! ### Python string and int primitives

`parse_availability` (source lines 246-254) uses `str.split("/")` and
`int(...)` inside a bare `try/except` that returns `(0, 0)` on any failure.
We model `str.split` (split at every separator occurrence, keeping empty
fields) and CPython's `int(str)` on ASCII input: optional surrounding
whitespace, one optional sign, then a nonempty digit run in which single
underscores may separate digits. -/

/-- Python `s.split(sep)` for a single-character separator: splits at every
occurrence, keeping empty fields; the result is always nonempty. -/
def pySplit (sep : Char) : List Char → List (List Char)
  | [] => [[]]
  | c :: rest =>
    match pySplit sep rest with
    | [] => [[]]
    | h :: t => if c = sep then [] :: h :: t else (c :: h) :: t

/-- Value of an ASCII digit character. -/
def digitVal (c : Char) : Nat := c.toNat - 48

/-- Digit run of CPython `int`: after the first digit, each further digit may
be preceded by a single underscore. -/
def pyDigitsCore : Nat → List Char → Option Nat
  | acc, [] => some acc
  | acc, c :: rest =>
    if c.isDigit then pyDigitsCore (10 * acc + digitVal c) rest
    else if c = '_' then
      match rest with
      | [] => none
      | c2 :: rest2 =>
        if c2.isDigit then pyDigitsCore (10 * acc + digitVal c2) rest2 else none
    else none

/-- A nonempty digit run (first character must be a digit). -/
def pyDigits? : List Char → Option Nat
  | [] => none
  | c :: rest => if c.isDigit then pyDigitsCore (digitVal c) rest else none

/-- Strip leading and trailing whitespace. -/
def stripWS (cs : List Char) : List Char :=
  ((cs.dropWhile Char.isWhitespace).reverse.dropWhile Char.isWhitespace).reverse

/-- CPython `int(s)` on an ASCII string, as `Option Int`:
`none` models a raised `ValueError`. -/
def pyInt' (cs : List Char) : Option Int :=
  match stripWS cs with
  | [] => none
  | c :: rest =>
    if c = '-' then (pyDigits? rest).map (fun n => -(n : Int))
    else if c = '+' then (pyDigits? rest).map (fun n => (n : Int))
    else (pyDigits? (c :: rest)).map (fun n => (n : Int))

/-- `parse_availability` (source lines 246-254): split on `"/"`, convert the
first two fields with `int`; any exception (missing second field or failed
conversion) yields `(0, 0)`. -/
def parse_availability (s : String) : Int × Int :=
  match pySplit '/' s.toList with
  | p0 :: p1 :: _ =>
    match pyInt' p0, pyInt' p1 with
    | some a, some b => (a, b)
    | _, _ => (0, 0)
  | _ => (0, 0)

/-- The inputs on which `parse_availability`'s try-block raises, i.e. fewer
than two `"/"`-fields or a field that `int` rejects. -/
def parseFails (s : String) : Bool :=
  match pySplit '/' s.toList with
  | p0 :: p1 :: _ => (pyInt' p0).isNone || (pyInt' p1).isNone
  | _ => true

/-- The ten ASCII digit characters; a non-negative integer numeral is a
nonempty string of these. -/
def digitChars : List Char :=
  ['0', '1', '2', '3', '4', '5', '6', '7', '8', '9']

/-- Base-10 value of a digit string. -/
def numeralVal (cs : List Char) : Nat :=
  cs.foldl (fun a c => 10 * a + digitVal c) 0

/-! ### Data model and SQLite state

The program keeps its state in two SQLite tables (source lines 40-72):

* `courses`: `id INTEGER PRIMARY KEY AUTOINCREMENT`, `code TEXT UNIQUE`,
  nine data columns, `last_updated TIMESTAMP DEFAULT CURRENT_TIMESTAMP`;
* `user_watchlist`: `id INTEGER PRIMARY KEY AUTOINCREMENT`,
  `course_code TEXT` (note: no UNIQUE constraint), `priority INTEGER`,
  `auto_register BOOLEAN DEFAULT 0`,
  `added_date TIMESTAMP DEFAULT CURRENT_TIMESTAMP`.

Rows are modelled explicitly, including the auto-assigned `id` and the
default timestamp columns.  `DB.now` is a logical clock: timestamps of
successive inserts are strictly increasing, a harmless strengthening of
`CURRENT_TIMESTAMP`'s monotonicity.  Row lists are kept in `rowid` order
(ascending `id`), which is the order SQLite scans a table in. -/

/-- The `Course` dataclass (source lines 22-32). -/
structure Course where
  code : String
  name : String
  credits : Int
  available_spots : Int
  total_spots : Int
  instructor : String
  schedule : String
  prerequisites : String
  status : String
deriving DecidableEq

/-- A row of the `courses` table. -/
structure CourseRow where
  id : Nat
  code : String
  name : String
  credits : Int
  available_spots : Int
  total_spots : Int
  instructor : String
  schedule : String
  prerequisites : String
  status : String
  last_updated : Nat
deriving DecidableEq

/-- A row of the `user_watchlist` table. -/
structure WatchRow where
  id : Nat
  course_code : String
  priority : Int
  auto_register : Bool
  added_date : Nat
deriving DecidableEq

/-- The SQLite database state. -/
structure DB where
  courses : List CourseRow
  coursesNextId : Nat
  watchlist : List WatchRow
  watchNextId : Nat
  now : Nat
deriving DecidableEq

/-- `setup_database` (source lines 40-72) on a fresh file: both tables
empty, AUTOINCREMENT counters at 1. -/
def setup_database : DB :=
  { courses := [], coursesNextId := 1, watchlist := [], watchNextId := 1, now := 0 }

/-- The nine data columns of a `courses` row, as a `Course`. -/
def rowContent (r : CourseRow) : Course :=
  { code := r.code, name := r.name, credits := r.credits
    available_spots := r.available_spots, total_spots := r.total_spots
    instructor := r.instructor, schedule := r.schedule
    prerequisites := r.prerequisites, status := r.status }

/-- One `INSERT OR REPLACE INTO courses (code, ..., status) VALUES ...`
(source lines 262-270).  `code` is UNIQUE, so the insert deletes any prior
row with the same code and appends a fresh row with a new `id` and a new
default `last_updated`. -/
def coursesUpsert (c : Course) (db : DB) : DB :=
  { db with
    courses := db.courses.filter (fun r => r.code != c.code) ++
      [{ id := db.coursesNextId, code := c.code, name := c.name
         credits := c.credits, available_spots := c.available_spots
         total_spots := c.total_spots, instructor := c.instructor
         schedule := c.schedule, prerequisites := c.prerequisites
         status := c.status, last_updated := db.now }]
    coursesNextId := db.coursesNextId + 1
    now := db.now + 1 }

/-- `save_courses_to_db` (source lines 256-274): upsert every course of the
list, in order. -/
def save_courses_to_db (courses : List Course) (db : DB) : DB :=
  courses.foldl (fun d c => coursesUpsert c d) db

/-- `SELECT * FROM courses WHERE code = ?` followed by `fetchone`:
the first row (in rowid order) with the given code. -/
def find_course (code : String) (rows : List CourseRow) : Option Course :=
  (rows.find? (fun r => r.code == code)).map rowContent

/-- `check_course_availability` (source lines 301-316): look the code up in
the `courses` table and rebuild the `Course` from columns 1-9. -/
def check_course_availability (code : String) (db : DB) : Option Course :=
  find_course code db.courses

/-- Menu option 1 (source lines 442-446): `SELECT code, name,
available_spots, total_spots, status FROM courses WHERE available_spots > 0`. -/
def list_available_courses (db : DB) : List (String × String × Int × Int × String) :=
  (db.courses.filter (fun r => decide (0 < r.available_spots))).map
    (fun r => (r.code, r.name, r.available_spots, r.total_spots, r.status))

/-- `add_to_watchlist` (source lines 287-299): `INSERT OR REPLACE INTO
user_watchlist (course_code, priority, auto_register) VALUES (?, ?, ?)`.
The table's only uniqueness constraint is the auto-assigned `id`, so the
statement can never hit a conflict: it always appends a fresh row.  The
Python parameter default is `auto_register = False`. -/
def add_to_watchlist (course_code : String) (priority : Int)
    (auto_register : Bool) (db : DB) : DB :=
  { db with
    watchlist := db.watchlist ++
      [{ id := db.watchNextId, course_code := course_code, priority := priority
         auto_register := auto_register, added_date := db.now }]
    watchNextId := db.watchNextId + 1
    now := db.now + 1 }

/-- The only call site of `add_to_watchlist` in the program, menu option 2
(source lines 455-458): `bot.add_to_watchlist(course_code, priority)` —
the `auto_register` argument is omitted, so the Python default `False`
applies. -/
def menu_add_to_watchlist (course_code : String) (priority : Int) (db : DB) : DB :=
  add_to_watchlist course_code priority false db

/-- `remove_from_watchlist` (source lines 368-374): `DELETE FROM
user_watchlist WHERE course_code = ?`. -/
def remove_from_watchlist (course_code : String) (db : DB) : DB :=
  { db with watchlist := db.watchlist.filter (fun r => r.course_code != course_code) }

/-- Stable insertion of a row after all rows of priority ≤ its own. -/
def insertByPriority (r : WatchRow) : List WatchRow → List WatchRow
  | [] => [r]
  | x :: xs =>
    if x.priority ≤ r.priority then x :: insertByPriority r xs else r :: x :: xs

/-- `ORDER BY priority` over the watchlist rows: a stable sort by priority,
rows of equal priority staying in rowid (insertion) order, which is how
SQLite evaluates this single-key ORDER BY over a table scan. -/
def sortByPriority (rows : List WatchRow) : List WatchRow :=
  rows.foldl (fun acc r => insertByPriority r acc) []

/-- `get_watchlist_courses` (source lines 276-285): `SELECT course_code FROM
user_watchlist ORDER BY priority`.  Only the code column is selected; the
`auto_register` flag is not read here (or anywhere else). -/
def get_watchlist_courses (db : DB) : List String :=
  (sortByPriority db.watchlist).map (fun r => r.course_code)

/-! ### Registration coordinator and monitor scheduler

`attempt_registration` (source lines 318-338) drives the browser and
classifies what it observes; the observation is abstracted as an
`AdapterResponse`.  The Python function returns a plain `bool` and catches
every exception. -/

/-- What the portal adapter can report for one registration attempt:
an explicit confirmation element, an explicit error element with its text,
no signal within the bounded wait, or a navigation failure (e.g. the
register button is missing). -/
inductive AdapterResponse where
  | confirmed
  | rejected (reason : String)
  | indeterminate
  | navError (msg : String)
deriving DecidableEq

/-- `attempt_registration` (source lines 318-338): `True` exactly when the
success element appears; a rejection's reason is only printed, and both the
rejection and the timeout/navigation paths return `False`. -/
def attempt_registration : AdapterResponse → Bool
  | AdapterResponse.confirmed => true
  | AdapterResponse.rejected _ => false
  | AdapterResponse.indeterminate => false
  | AdapterResponse.navError _ => false

/-- Whether the loop body's guard `course and course.available_spots > 0`
holds for a code against the current `courses` table. -/
def actionableB (code : String) (rows : List CourseRow) : Bool :=
  match find_course code rows with
  | some c => decide (0 < c.available_spots)
  | none => false

/-- The body of the scan/act loop for one watchlist code (source lines
355-361): look the snapshot up; if it exists with `available_spots > 0`,
attempt registration and, on a `True` outcome, remove the code from the
watchlist.  The boolean records whether an attempt was made. -/
def acting_step (adapter : String → AdapterResponse) (code : String)
    (db : DB) : DB × Bool :=
  match check_course_availability code db with
  | some course =>
    if 0 < course.available_spots then
      (if attempt_registration (adapter code) then remove_from_watchlist code db
       else db, true)
    else (db, false)
  | none => (db, false)

/-- The scan/act part of one monitoring cycle (source lines 353-362): run
the loop body over the prefetched watchlist codes, collecting the codes for
which a registration attempt was made. -/
def acting (adapter : String → AdapterResponse) :
    List String → DB → DB × List String
  | [], db => (db, [])
  | code :: rest, db =>
    let s := acting_step adapter code db
    let r := acting adapter rest s.1
    (r.1, if s.2 then code :: r.2 else r.2)

/-- One full iteration of `monitor_and_register`'s loop body (source lines
345-362): refresh (scrape results are an input; the scrape writes the
snapshots), then scan and act on the prefetched watchlist. -/
def run_cycle (adapter : String → AdapterResponse) (scraped : List Course)
    (db : DB) : DB × List String :=
  let db1 := save_courses_to_db scraped db
  acting adapter (get_watchlist_courses db1) db1

/-- Loop-level events of `monitor_and_register`: one `cycle` per iteration
of the while-loop body, one `sleep` per `time.sleep(delay)` call. -/
inductive MonEvent where
  | cycle
  | sleep
deriving DecidableEq, BEq

/-- `monitor_and_register` (source lines 340-366): `attempt = 0; while
attempt < max_attempts: <cycle>; attempt += 1; if attempt < max_attempts:
time.sleep(delay)`.  Structural recursion on the remaining iteration count
`max_attempts - attempt` mirrors the loop; the event list records the order
of cycles and sleeps. -/
def monitor_and_register (adapter : String → AdapterResponse)
    (scrape : Nat → List Course) : Nat → DB → DB × List MonEvent
  | 0, db => (db, [])
  | k + 1, db =>
    let step := run_cycle adapter (scrape k) db
    let rest := monitor_and_register adapter scrape k step.1
    (rest.1, MonEvent.cycle ::
      (if 0 < k then MonEvent.sleep :: rest.2 else rest.2))

/-- The loop shape the specification describes: `n` cycles with a single
sleep between consecutive cycles and none after the last. -/
def specLoopTrace (n : Nat) : List MonEvent :=
  List.intercalate [MonEvent.sleep] (List.replicate n [MonEvent.cycle])

/-- The watchlist-writing operations reachable through the program's own
flows: menu option 2 (add, with the omitted `auto_register` argument) and
the scheduler's removal on a successful registration. -/
inductive WatchOp where
  | menuAdd (code : String) (priority : Int)
  | removeOp (code : String)
deriving DecidableEq

def applyWatchOp (db : DB) : WatchOp → DB
  | WatchOp.menuAdd c p => menu_add_to_watchlist c p db
  | WatchOp.removeOp c => remove_from_watchlist c db

def applyWatchOps (ops : List WatchOp) (db : DB) : DB :=
  ops.foldl applyWatchOp db

/-! ### Observable content of the snapshot store

The program reads the `courses` table only through
`check_course_availability` (columns 1-9) and the menu's available-courses
query; neither reads the surrogate `id` nor `last_updated`.  The observable
content of the store is therefore the row list projected to its nine data
columns. -/

/-- The `courses` rows projected to their nine data columns, in rowid order. -/
def contentList (db : DB) : List Course := db.courses.map rowContent

/-- `coursesUpsert` at the level of observable content. -/
def upsertContent (c : Course) (l : List Course) : List Course :=
  l.filter (fun x => x.code != c.code) ++ [c]

/-- `save_courses_to_db` at the level of observable content. -/
def saveContent (cs : List Course) (l : List Course) : List Course :=
  cs.foldl (fun acc c => upsertContent c acc) l

/-- Whether some course in the list carries the given code. -/
def codeIn (s : String) (cs : List Course) : Bool :=
  cs.any (fun c => s == c.code)

/-! ### Concrete states used by individual claims -/

/-- A state with one open snapshot (5/30 spots) for `CSCI1030U` and one
watchlist row for it whose `auto_register` flag is `false`. -/
def C1db : DB :=
  { courses := [{ id := 1, code := "CSCI1030U", name := "Introduction to Computer Science"
                  credits := 3, available_spots := 5, total_spots := 30
                  instructor := "Staff", schedule := "MWF", prerequisites := ""
                  status := "Open", last_updated := 0 }]
    coursesNextId := 2
    watchlist := [{ id := 1, course_code := "CSCI1030U", priority := 1
                    auto_register := false, added_date := 0 }]
    watchNextId := 2, now := 1 }

/-- The watchlist state after adding `CSCI1030U`, then `MATH1010U`, then
re-adding `CSCI1030U`, all at priority 1. -/
def C5db : DB :=
  add_to_watchlist "CSCI1030U" 1 false
    (add_to_watchlist "MATH1010U" 1 false
      (add_to_watchlist "CSCI1030U" 1 false setup_database))

/-- A state with one open snapshot (2/40 spots) for `CSCI2050U` and one
watchlist row for it. -/
def C6db : DB :=
  { courses := [{ id := 1, code := "CSCI2050U", name := "Computer Architecture"
                  credits := 3, available_spots := 2, total_spots := 40
                  instructor := "Staff", schedule := "TR", prerequisites := ""
                  status := "Open", last_updated := 0 }]
    coursesNextId := 2
    watchlist := [{ id := 1, course_code := "CSCI2050U", priority := 1
                    auto_register := true, added_date := 0 }]
    watchNextId := 2, now := 1 }

/-- A single scraped course used to exercise the snapshot upsert. -/
def C9course : Course :=
  { code := "CSCI1030U", name := "Introduction to Computer Science"
    credits := 3, available_spots := 5, total_spots := 30
    instructor := "Staff", schedule := "MWF", prerequisites := ""
    status := "Open" }

/-! ### Claim C1 -/

/-- Claim C1: the specification says a registration attempt is made during a
cycle only for entries whose `autoRegister` flag is true.  The code never
reads `auto_register` (`get_watchlist_courses` selects only `course_code`),
so a cycle over a state whose sole watchlist entry has `auto_register =
false` and whose snapshot shows 5 open spots still calls
`attempt_registration` for that entry. -/
theorem C1_attempts_despite_auto_register_false :
    (∀ r ∈ C1db.watchlist, r.auto_register = false) ∧
      (run_cycle (fun _ => AdapterResponse.indeterminate) [] C1db).2 = ["CSCI1030U"] := by
  decide

/-! ### Claim C2 -/

/-- Claim C2: the specification says re-adding a course code replaces the
existing watchlist entry, so no two entries share a `courseCode`.  The
`user_watchlist` table has no UNIQUE constraint on `course_code` (source
lines 61-69), so `INSERT OR REPLACE` never conflicts and always appends:
adding `CSCI1030U` twice leaves two rows with that code. -/
theorem C2_readd_creates_duplicate_row :
    ((add_to_watchlist "CSCI1030U" 2 false
        (add_to_watchlist "CSCI1030U" 1 false setup_database)).watchlist.filter
      (fun r => r.course_code == "CSCI1030U")).length = 2 := by
  decide

/-! ### Claim C5 -/

/-- Claim C5: the specification says the ordered listing returns one entry
per code, with a re-added code's `addedAt` reset so it sorts as a fresh
watch (here: `["MATH1010U", "CSCI1030U"]`).  Because re-adding appends
instead of replacing, the listing actually contains `CSCI1030U` twice —
three entries in all, the stale first entry still in place. -/
theorem C5_listing_shows_duplicate_after_readd :
    ((get_watchlist_courses C5db).count "CSCI1030U" = 2) ∧
      get_watchlist_courses C5db = ["CSCI1030U", "MATH1010U", "CSCI1030U"] := by
  decide

/-! ### Parser lemmas -/

theorem dropWhile_all_false {p : Char → Bool} {l : List Char}
    (h : ∀ c ∈ l, p c = false) : l.dropWhile p = l := by
  cases l with
  | nil => rfl
  | cons c rest =>
    have hc := h c (List.mem_cons_self c rest)
    simp [List.dropWhile_cons, hc]

theorem stripWS_of_no_ws {cs : List Char}
    (h : ∀ c ∈ cs, c.isWhitespace = false) : stripWS cs = cs := by
  unfold stripWS
  rw [dropWhile_all_false h,
    dropWhile_all_false (fun c hc => h c (List.mem_reverse.mp hc)),
    List.reverse_reverse]

theorem mem_digitChars_isDigit {c : Char} (h : c ∈ digitChars) :
    c.isDigit = true := by
  simp [digitChars] at h
  rcases h with rfl | rfl | rfl | rfl | rfl | rfl | rfl | rfl | rfl | rfl <;> decide

theorem mem_digitChars_not_ws {c : Char} (h : c ∈ digitChars) :
    c.isWhitespace = false := by
  simp [digitChars] at h
  rcases h with rfl | rfl | rfl | rfl | rfl | rfl | rfl | rfl | rfl | rfl <;> decide

theorem mem_digitChars_ne_slash {c : Char} (h : c ∈ digitChars) : ¬ c = '/' := by
  simp [digitChars] at h
  rcases h with rfl | rfl | rfl | rfl | rfl | rfl | rfl | rfl | rfl | rfl <;> decide

theorem mem_digitChars_ne_minus {c : Char} (h : c ∈ digitChars) : ¬ c = '-' := by
  simp [digitChars] at h
  rcases h with rfl | rfl | rfl | rfl | rfl | rfl | rfl | rfl | rfl | rfl <;> decide

theorem mem_digitChars_ne_plus {c : Char} (h : c ∈ digitChars) : ¬ c = '+' := by
  simp [digitChars] at h
  rcases h with rfl | rfl | rfl | rfl | rfl | rfl | rfl | rfl | rfl | rfl <;> decide

theorem pyDigitsCore_all_digits :
    ∀ (cs : List Char), (∀ c ∈ cs, c.isDigit = true) →
      ∀ acc, pyDigitsCore acc cs =
        some (cs.foldl (fun a c => 10 * a + digitVal c) acc) := by
  intro cs
  induction cs with
  | nil => intro _ acc; rfl
  | cons c rest ih =>
    intro h acc
    have hc := h c (List.mem_cons_self c rest)
    unfold pyDigitsCore
    simp only [hc, if_true, List.foldl_cons]
    exact ih (fun x hx => h x (List.mem_cons_of_mem c hx)) _

theorem pyDigits?_all_digits (cs : List Char) (hne : cs ≠ [])
    (h : ∀ c ∈ cs, c.isDigit = true) : pyDigits? cs = some (numeralVal cs) := by
  cases cs with
  | nil => exact absurd rfl hne
  | cons c rest =>
    have hc := h c (List.mem_cons_self c rest)
    simp only [pyDigits?, hc, if_true, numeralVal, List.foldl_cons]
    rw [pyDigitsCore_all_digits rest (fun x hx => h x (List.mem_cons_of_mem c hx))]
    congr 2
    omega

theorem pyInt'_all_digits (cs : List Char) (hne : cs ≠ [])
    (h : ∀ c ∈ cs, c ∈ digitChars) : pyInt' cs = some ((numeralVal cs : Nat) : Int) := by
  have hd : ∀ c ∈ cs, c.isDigit = true := fun c hc => mem_digitChars_isDigit (h c hc)
  have hw : ∀ c ∈ cs, c.isWhitespace = false := fun c hc => mem_digitChars_not_ws (h c hc)
  unfold pyInt'
  rw [stripWS_of_no_ws hw]
  cases cs with
  | nil => exact absurd rfl hne
  | cons c rest =>
    have hc := h c (List.mem_cons_self c rest)
    have h1 := mem_digitChars_ne_minus hc
    have h2 := mem_digitChars_ne_plus hc
    simp only [h1, h2, if_false]
    rw [pyDigits?_all_digits (c :: rest) (by simp) hd]
    rfl

theorem pySplit_ne_nil (sep : Char) : ∀ l : List Char, pySplit sep l ≠ [] := by
  intro l
  induction l with
  | nil => simp [pySplit]
  | cons c rest ih =>
    simp only [pySplit]
    cases hr : pySplit sep rest with
    | nil => simp
    | cons h t => by_cases hc : c = sep <;> simp [hc]

theorem pySplit_no_sep (sep : Char) :
    ∀ l : List Char, (∀ c ∈ l, ¬ c = sep) → pySplit sep l = [l] := by
  intro l
  induction l with
  | nil => intro _; rfl
  | cons c rest ih =>
    intro h
    have hc : ¬ c = sep := h c (List.mem_cons_self c rest)
    have hr := ih (fun x hx => h x (List.mem_cons_of_mem c hx))
    simp only [pySplit]
    rw [hr]
    simp [hc]

theorem pySplit_append_sep (sep : Char) :
    ∀ (as bs : List Char), (∀ c ∈ as, ¬ c = sep) →
      pySplit sep (as ++ sep :: bs) = as :: pySplit sep bs := by
  intro as
  induction as with
  | nil =>
    intro bs _
    simp only [List.nil_append, pySplit]
    cases hr : pySplit sep bs with
    | nil => exact absurd hr (pySplit_ne_nil sep bs)
    | cons h t => simp
  | cons a as' ih =>
    intro bs h
    have ha : ¬ a = sep := h a (List.mem_cons_self a as')
    have hr := ih bs (fun x hx => h x (List.mem_cons_of_mem a hx))
    simp only [List.cons_append, pySplit, List.append_eq]
    rw [hr]
    simp [ha]

theorem parse_digit_pair (as bs : List Char) (ha : as ≠ []) (hb : bs ≠ [])
    (hda : ∀ c ∈ as, c ∈ digitChars) (hdb : ∀ c ∈ bs, c ∈ digitChars) :
    parse_availability (String.mk (as ++ '/' :: bs)) =
      ((numeralVal as : Int), (numeralVal bs : Int)) := by
  have hsa : ∀ c ∈ as, ¬ c = '/' := fun c hc => mem_digitChars_ne_slash (hda c hc)
  have hsb : ∀ c ∈ bs, ¬ c = '/' := fun c hc => mem_digitChars_ne_slash (hdb c hc)
  unfold parse_availability
  have htl : (String.mk (as ++ '/' :: bs)).toList = as ++ '/' :: bs := rfl
  rw [htl, pySplit_append_sep '/' as bs hsa, pySplit_no_sep '/' bs hsb]
  show (match pyInt' as, pyInt' bs with
        | some a, some b => (a, b)
        | _, _ => ((0 : Int), (0 : Int))) =
      ((numeralVal as : Int), (numeralVal bs : Int))
  rw [pyInt'_all_digits as ha hda, pyInt'_all_digits bs hb hdb]

theorem parseFails_parse_zero (s : String) (h : parseFails s = true) :
    parse_availability s = (0, 0) := by
  unfold parse_availability
  unfold parseFails at h
  cases hsp : pySplit '/' s.toList with
  | nil => rfl
  | cons p0 t =>
    cases t with
    | nil => rfl
    | cons p1 ps =>
      rw [hsp] at h
      have h' : ((pyInt' p0).isNone || (pyInt' p1).isNone) = true := h
      show (match pyInt' p0, pyInt' p1 with
            | some a, some b => (a, b)
            | _, _ => ((0 : Int), (0 : Int))) = (0, 0)
      cases h0 : pyInt' p0 with
      | none =>
        cases h1 : pyInt' p1 with
        | none => rfl
        | some b => rfl
      | some a =>
        cases h1 : pyInt' p1 with
        | none => rfl
        | some b =>
          rw [h0, h1] at h'
          simp at h'

/-! ### Claim C3 -/

/-- Claim C3, counterexample: the claim says every string not of the exact
form `"a/b"` (extra parts, negative numerals) yields `(0, 0)`; but
`"1/2/3"` yields `(1, 2)` (extra fields are ignored) and `"-1/5"` yields
`(-1, 5)` (the sign is parsed). -/
theorem C3_cex_extra_parts_and_negative :
    parse_availability "1/2/3" = (1, 2) ∧ (1, 2) ≠ ((0 : Int), (0 : Int)) ∧
      parse_availability "-1/5" = (-1, 5) ∧ (-1, 5) ≠ ((0 : Int), (0 : Int)) := by
  decide

/-- Claim C3, amended: `parse_availability` is pure and total; every string
of the exact form `"a/b"` with `a`, `b` non-negative integer numerals
round-trips to `(a, b)`; more generally, whenever the first two
`"/"`-separated fields both parse as Python integers the result is those two
values (extra fields are ignored, signs are preserved); every string whose
first two `"/"`-fields do not both parse yields `(0, 0)` without raising. -/
theorem C3_parse_availability_amended :
    (∀ as bs : List Char, as ≠ [] → bs ≠ [] →
        (∀ c ∈ as, c ∈ digitChars) → (∀ c ∈ bs, c ∈ digitChars) →
        parse_availability (String.mk (as ++ '/' :: bs)) =
          ((numeralVal as : Int), (numeralVal bs : Int)))
    ∧ (∀ (s : String) (p0 p1 : List Char) (ps : List (List Char)) (a b : Int),
        pySplit '/' s.toList = p0 :: p1 :: ps →
        pyInt' p0 = some a → pyInt' p1 = some b → parse_availability s = (a, b))
    ∧ (∀ s : String, parseFails s = true → parse_availability s = (0, 0)) := by
  refine ⟨parse_digit_pair, ?_, parseFails_parse_zero⟩
  intro s p0 p1 ps a b hsp h0 h1
  unfold parse_availability
  rw [hsp]
  show (match pyInt' p0, pyInt' p1 with
        | some a, some b => (a, b)
        | _, _ => ((0 : Int), (0 : Int))) = (a, b)
  rw [h0, h1]

/-- Claim C3, witness: the round-trip conjunct at `"15/30"`. -/
theorem C3_parse_availability_amended_witness :
    parse_availability (String.mk (['1', '5'] ++ '/' :: ['3', '0'])) =
        ((numeralVal ['1', '5'] : Int), (numeralVal ['3', '0'] : Int)) ∧
      numeralVal ['1', '5'] = 15 ∧ numeralVal ['3', '0'] = 30 :=
  ⟨C3_parse_availability_amended.1 ['1', '5'] ['3', '0'] (by decide) (by decide)
      (by decide) (by decide), by decide, by decide⟩

/-! ### Claim C4 -/

/-- Claim C4, counterexample: the parser does not enforce
`availableSpots ≤ totalSpots` — `"5/3"` parses to `(5, 3)`. -/
theorem C4_cex_bounds_not_enforced :
    ¬ (∀ s : String, 0 ≤ (parse_availability s).1 ∧
        (parse_availability s).1 ≤ (parse_availability s).2) := by
  intro h
  exact absurd (h "5/3") (by decide)

/-- Claim C4, amended: the parser does not enforce
`0 ≤ availableSpots ≤ totalSpots`: any input whose first two `"/"`-fields
parse as integers is returned verbatim (`"5/3"` gives `(5, 3)` with
available > total, `"-1/5"` gives `(-1, 5)` with a negative count); the
`(0, 0)` normalization — which does satisfy the bounds — applies exactly to
the inputs on which parsing fails. -/
theorem C4_parser_returns_parsed_values :
    parse_availability "5/3" = (5, 3)
    ∧ parse_availability "-1/5" = (-1, 5)
    ∧ (∀ s : String, parseFails s = true →
        parse_availability s = (0, 0) ∧ 0 ≤ (parse_availability s).1 ∧
          (parse_availability s).1 ≤ (parse_availability s).2) := by
  refine ⟨by decide, by decide, ?_⟩
  intro s h
  have hz := parseFails_parse_zero s h
  rw [hz]
  exact ⟨rfl, by decide, by decide⟩

/-- Claim C4, witness: the normalization conjunct at the unparsable input
`"abc"`. -/
theorem C4_parser_returns_parsed_values_witness :
    parseFails "abc" = true ∧ parse_availability "abc" = (0, 0) :=
  ⟨by decide, (C4_parser_returns_parsed_values.2.2 "abc" (by decide)).1⟩

/-! ### Claim C8 -/

/-- Claim C8, counterexample: the claim says a timeout (`Ambiguous`) is
distinguishable from an explicit rejection (`Failure`) in the returned
value, with the rejection reason preserved verbatim.  `attempt_registration`
returns a bare boolean: an explicit rejection and a timeout both come back
as the same value `false`, and the reason string is absent from it. -/
theorem C8_cex_rejection_equals_timeout :
    attempt_registration (AdapterResponse.rejected "Course is full") =
        attempt_registration AdapterResponse.indeterminate ∧
      attempt_registration AdapterResponse.indeterminate = false := by
  decide

/-- Claim C8, amended: `attempt_registration` always returns a boolean as
data rather than raising — `true` exactly when the adapter reports an
explicit confirmation; explicit rejections (reason only printed), timeouts
and navigation failures all return `false` and are not distinguishable in
the returned value. -/
theorem C8_returns_bool_confirmed_iff (r : AdapterResponse) :
    attempt_registration r = true ↔ r = AdapterResponse.confirmed := by
  cases r <;> simp [attempt_registration]

/-! ### Claim C7 -/

theorem specLoopTrace_succ_succ (n : Nat) :
    specLoopTrace (n + 2) = MonEvent.cycle :: MonEvent.sleep :: specLoopTrace (n + 1) := rfl

theorem monitor_trace_eq_spec (adapter : String → AdapterResponse)
    (scrape : Nat → List Course) :
    ∀ (n : Nat) (db : DB),
      (monitor_and_register adapter scrape n db).2 = specLoopTrace n := by
  intro n
  induction n with
  | zero => intro db; rfl
  | succ k ih =>
    intro db
    simp only [monitor_and_register]
    rw [ih]
    cases k with
    | zero => rfl
    | succ m => rw [if_pos (Nat.succ_pos m), specLoopTrace_succ_succ]

theorem specLoopTrace_count : ∀ n : Nat, (specLoopTrace n).count MonEvent.cycle = n := by
  intro n
  induction n with
  | zero => rfl
  | succ k ih =>
    cases k with
    | zero => rfl
    | succ m =>
      rw [specLoopTrace_succ_succ]
      have h1 : (MonEvent.cycle :: MonEvent.sleep :: specLoopTrace (m + 1)).count
            MonEvent.cycle = (specLoopTrace (m + 1)).count MonEvent.cycle + 1 := by
        simp [List.count_cons, show (MonEvent.sleep == MonEvent.cycle) = false from rfl,
          show (MonEvent.cycle == MonEvent.cycle) = true from rfl]
      rw [h1, ih]

/-- Claim C7: for every `N`, the monitor loop performs exactly `N` cycle
iterations (hence at most `N`) and then stops — the Lean loop is total by
structural recursion on the remaining attempt count, mirroring the
terminating `while attempt < max_attempts` loop — and its event trace is
`N` cycles with a single sleep between consecutive cycles and none after
the final one: the timed wait happens only when the incremented counter has
not yet reached `max_attempts`. -/
theorem C7_monitor_loop_trace (adapter : String → AdapterResponse)
    (scrape : Nat → List Course) (N : Nat) (db : DB) :
    (monitor_and_register adapter scrape N db).2 = specLoopTrace N ∧
      (monitor_and_register adapter scrape N db).2.count MonEvent.cycle = N := by
  refine ⟨monitor_trace_eq_spec adapter scrape N db, ?_⟩
  rw [monitor_trace_eq_spec adapter scrape N db]
  exact specLoopTrace_count N

/-! ### Claim C10 -/

theorem watch_auto_register_invariant :
    ∀ (ops : List WatchOp) (db : DB),
      (∀ r ∈ db.watchlist, r.auto_register = false) →
      ∀ r ∈ (applyWatchOps ops db).watchlist, r.auto_register = false := by
  intro ops
  induction ops with
  | nil => intro db h; exact h
  | cons op rest ih =>
    intro db h
    show ∀ r ∈ (applyWatchOps rest (applyWatchOp db op)).watchlist, r.auto_register = false
    refine ih (applyWatchOp db op) ?_
    cases op with
    | menuAdd c p =>
      intro r hr
      simp only [applyWatchOp, menu_add_to_watchlist, add_to_watchlist] at hr
      rcases List.mem_append.mp hr with h1 | h1
      · exact h r h1
      · rw [List.mem_singleton.mp h1]
    | removeOp c =>
      intro r hr
      simp only [applyWatchOp, remove_from_watchlist] at hr
      exact h r (List.mem_filter.mp hr).1

/-- Claim C10: the omitted `auto_register` argument at the program's only
`add_to_watchlist` call site (the interactive menu's add path) means the
Python default `False` is stored, so after any sequence of the program's own
watchlist-writing flows — menu adds and scheduler removals — every stored
entry has `auto_register = false`. -/
theorem C10_program_flows_store_auto_register_false :
    (∀ (code : String) (priority : Int) (db : DB),
        menu_add_to_watchlist code priority db = add_to_watchlist code priority false db)
    ∧ (∀ ops : List WatchOp,
        ∀ r ∈ (applyWatchOps ops setup_database).watchlist, r.auto_register = false) := by
  refine ⟨fun _ _ _ => rfl, fun ops => watch_auto_register_invariant ops setup_database ?_⟩
  intro r hr
  exact absurd hr (List.not_mem_nil r)

/-- Claim C10, witness: one menu add stores a row, and that row's flag is
`false`. -/
theorem C10_program_flows_store_auto_register_false_witness :
    ({ id := 1, course_code := "CSCI1030U", priority := 1, auto_register := false
       added_date := 0 } : WatchRow) ∈
        (applyWatchOps [WatchOp.menuAdd "CSCI1030U" 1] setup_database).watchlist ∧
      ({ id := 1, course_code := "CSCI1030U", priority := 1, auto_register := false
         added_date := 0 } : WatchRow).auto_register = false :=
  ⟨by decide,
   C10_program_flows_store_auto_register_false.2 [WatchOp.menuAdd "CSCI1030U" 1]
     { id := 1, course_code := "CSCI1030U", priority := 1, auto_register := false
       added_date := 0 } (by decide)⟩

/-! ### Claim C6 -/

theorem filter_comm' {α : Type} (p q : α → Bool) (l : List α) :
    (l.filter q).filter p = (l.filter p).filter q := by
  rw [List.filter_filter, List.filter_filter]
  exact List.filter_congr (fun x _ => Bool.and_comm (p x) (q x))

theorem save_watchlist_eq : ∀ (cs : List Course) (db : DB),
    (save_courses_to_db cs db).watchlist = db.watchlist := by
  intro cs
  induction cs with
  | nil => intro db; rfl
  | cons c t ih =>
    intro db
    show (save_courses_to_db t (coursesUpsert c db)).watchlist = db.watchlist
    rw [ih (coursesUpsert c db)]
    rfl

theorem mem_insertByPriority (r x : WatchRow) :
    ∀ l : List WatchRow, x ∈ insertByPriority r l ↔ x = r ∨ x ∈ l := by
  intro l
  induction l with
  | nil => simp [insertByPriority]
  | cons a t ih =>
    unfold insertByPriority
    by_cases h : a.priority ≤ r.priority
    · rw [if_pos h, List.mem_cons, ih, List.mem_cons]
      tauto
    · rw [if_neg h, List.mem_cons]

theorem mem_sortByPriority_aux (x : WatchRow) :
    ∀ (l acc : List WatchRow),
      x ∈ l.foldl (fun a r => insertByPriority r a) acc ↔ x ∈ acc ∨ x ∈ l := by
  intro l
  induction l with
  | nil => intro acc; simp
  | cons r t ih =>
    intro acc
    rw [List.foldl_cons, ih, mem_insertByPriority]
    simp only [List.mem_cons]
    tauto

theorem mem_sortByPriority (x : WatchRow) (l : List WatchRow) :
    x ∈ sortByPriority l ↔ x ∈ l := by
  unfold sortByPriority
  rw [mem_sortByPriority_aux]
  simp

theorem acting_step_none (adapter : String → AdapterResponse) (code : String)
    (db : DB) (h : check_course_availability code db = none) :
    acting_step adapter code db = (db, false) := by
  unfold acting_step
  rw [h]

theorem acting_step_some_pos (adapter : String → AdapterResponse) (code : String)
    (db : DB) (course : Course)
    (h : check_course_availability code db = some course)
    (hav : 0 < course.available_spots) :
    acting_step adapter code db =
      (if attempt_registration (adapter code) then remove_from_watchlist code db
       else db, true) := by
  unfold acting_step
  rw [h]
  show (if 0 < course.available_spots then
      (if attempt_registration (adapter code) then remove_from_watchlist code db
       else db, true)
    else (db, false)) = _
  exact if_pos hav

theorem acting_step_some_neg (adapter : String → AdapterResponse) (code : String)
    (db : DB) (course : Course)
    (h : check_course_availability code db = some course)
    (hav : ¬ 0 < course.available_spots) :
    acting_step adapter code db = (db, false) := by
  unfold acting_step
  rw [h]
  show (if 0 < course.available_spots then
      (if attempt_registration (adapter code) then remove_from_watchlist code db
       else db, true)
    else (db, false)) = _
  exact if_neg hav

theorem acting_step_courses (adapter : String → AdapterResponse) (code : String)
    (db : DB) : (acting_step adapter code db).1.courses = db.courses := by
  cases hch : check_course_availability code db with
  | none => rw [acting_step_none adapter code db hch]
  | some course =>
    by_cases hav : 0 < course.available_spots
    · rw [acting_step_some_pos adapter code db course hch hav]
      cases hat : attempt_registration (adapter code) <;>
        simp [hat, remove_from_watchlist]
    · rw [acting_step_some_neg adapter code db course hch hav]

theorem acting_step_of_fail (adapter : String → AdapterResponse) (code : String)
    (db : DB) (h : attempt_registration (adapter code) = false) :
    (acting_step adapter code db).1 = db := by
  cases hch : check_course_availability code db with
  | none => rw [acting_step_none adapter code db hch]
  | some course =>
    by_cases hav : 0 < course.available_spots
    · rw [acting_step_some_pos adapter code db course hch hav, h]
      simp
    · rw [acting_step_some_neg adapter code db course hch hav]

theorem acting_step_watch_cases (adapter : String → AdapterResponse)
    (code : String) (db : DB) :
    (acting_step adapter code db).1.watchlist = db.watchlist ∨
      (acting_step adapter code db).1.watchlist =
        db.watchlist.filter (fun r => r.course_code != code) := by
  cases hch : check_course_availability code db with
  | none => rw [acting_step_none adapter code db hch]; exact Or.inl rfl
  | some course =>
    by_cases hav : 0 < course.available_spots
    · rw [acting_step_some_pos adapter code db course hch hav]
      cases hat : attempt_registration (adapter code)
      · rw [if_neg (by simp : ¬ false = true)]
        exact Or.inl rfl
      · rw [if_pos rfl]
        exact Or.inr rfl
    · rw [acting_step_some_neg adapter code db course hch hav]
      exact Or.inl rfl

theorem acting_step_of_success (adapter : String → AdapterResponse) (code : String)
    (db : DB) (hs : attempt_registration (adapter code) = true)
    (ha : actionableB code db.courses = true) :
    (acting_step adapter code db).1.watchlist =
      db.watchlist.filter (fun r => r.course_code != code) := by
  unfold actionableB at ha
  cases hf : find_course code db.courses with
  | none => rw [hf] at ha; exact absurd ha (by simp)
  | some course =>
    rw [hf] at ha
    have hav : 0 < course.available_spots := of_decide_eq_true ha
    rw [acting_step_some_pos adapter code db course hf hav, if_pos hs]
    rfl

theorem acting_filter_nil (adapter : String → AdapterResponse) (code : String) :
    ∀ (codes : List String) (db : DB),
      db.watchlist.filter (fun r => r.course_code == code) = [] →
      (acting adapter codes db).1.watchlist.filter
        (fun r => r.course_code == code) = [] := by
  intro codes
  induction codes with
  | nil => intro db h; exact h
  | cons c rest ih =>
    intro db h
    simp only [acting]
    apply ih
    rcases acting_step_watch_cases adapter c db with hw | hw
    · rw [hw]; exact h
    · rw [hw, filter_comm', h, List.filter_nil]

theorem acting_filter_of_fail (adapter : String → AdapterResponse) (code : String)
    (h : attempt_registration (adapter code) = false) :
    ∀ (codes : List String) (db : DB),
      (acting adapter codes db).1.watchlist.filter (fun r => r.course_code == code) =
        db.watchlist.filter (fun r => r.course_code == code) := by
  intro codes
  induction codes with
  | nil => intro db; rfl
  | cons c rest ih =>
    intro db
    simp only [acting]
    rw [ih]
    by_cases hc : c = code
    · subst hc
      rw [acting_step_of_fail adapter c db h]
    · rcases acting_step_watch_cases adapter c db with hw | hw
      · rw [hw]
      · rw [hw, filter_comm']
        apply List.filter_eq_self.mpr
        intro x hx
        have hxc : x.course_code = code := by
          have hb := (List.mem_filter.mp hx).2
          exact beq_iff_eq.mp hb
        simp only [bne_iff_ne, ne_eq, hxc]
        exact fun hcontra => hc hcontra.symm

theorem acting_success_removes (adapter : String → AdapterResponse) (code : String)
    (hs : attempt_registration (adapter code) = true) :
    ∀ (codes : List String) (db : DB), code ∈ codes →
      actionableB code db.courses = true →
      (acting adapter codes db).1.watchlist.filter
        (fun r => r.course_code == code) = [] := by
  intro codes
  induction codes with
  | nil => intro db h _; exact absurd h (List.not_mem_nil code)
  | cons c rest ih =>
    intro db hmem hact
    simp only [acting]
    by_cases hc : c = code
    · subst hc
      apply acting_filter_nil
      rw [acting_step_of_success adapter c db hs hact, filter_comm']
      apply List.filter_eq_nil_iff.mpr
      intro x hx
      have hxc : x.course_code = c := by
        have hb := (List.mem_filter.mp hx).2
        exact beq_iff_eq.mp hb
      simp [hxc]
    · rcases List.mem_cons.mp hmem with h1 | h1
      · exact absurd h1.symm hc
      · refine ih (acting_step adapter c db).1 h1 ?_
        rw [acting_step_courses]
        exact hact

/-- Claim C6: over one full cycle, for any watchlist code: if its
registration attempt comes back `False` (an explicit rejection or a
timeout), its rows in the watchlist store are exactly as before the cycle —
present and unchanged, so it is retried next cycle; if the attempt comes
back `True` and the entry was present and actionable against the refreshed
snapshot store, the code is absent from the watchlist store after the
cycle. -/
theorem C6_success_removes_failure_preserves (adapter : String → AdapterResponse)
    (scraped : List Course) (db : DB) (code : String) :
    (attempt_registration (adapter code) = false →
      (run_cycle adapter scraped db).1.watchlist.filter
          (fun r => r.course_code == code) =
        db.watchlist.filter (fun r => r.course_code == code))
    ∧ (attempt_registration (adapter code) = true →
       (∃ r ∈ db.watchlist, r.course_code = code) →
       actionableB code (save_courses_to_db scraped db).courses = true →
       (run_cycle adapter scraped db).1.watchlist.filter
         (fun r => r.course_code == code) = []) := by
  constructor
  · intro hf
    unfold run_cycle
    rw [acting_filter_of_fail adapter code hf, save_watchlist_eq]
  · intro hs hmem hact
    unfold run_cycle
    apply acting_success_removes adapter code hs
    · obtain ⟨r, hr, hrc⟩ := hmem
      unfold get_watchlist_courses
      apply List.mem_map.mpr
      refine ⟨r, ?_, hrc⟩
      rw [mem_sortByPriority, save_watchlist_eq]
      exact hr
    · exact hact

/-- Claim C6, witness: both conclusions at the concrete state `C6db` —
a confirmed attempt leaves no `CSCI2050U` row, a rejected attempt leaves the
rows untouched. -/
theorem C6_success_removes_failure_preserves_witness :
    ((run_cycle (fun _ => AdapterResponse.confirmed) [] C6db).1.watchlist.filter
        (fun r => r.course_code == "CSCI2050U") = []) ∧
      ((run_cycle (fun _ => AdapterResponse.rejected "Course is full") []
          C6db).1.watchlist.filter (fun r => r.course_code == "CSCI2050U") =
        C6db.watchlist.filter (fun r => r.course_code == "CSCI2050U")) :=
  ⟨(C6_success_removes_failure_preserves (fun _ => AdapterResponse.confirmed) []
        C6db "CSCI2050U").2 rfl
      ⟨{ id := 1, course_code := "CSCI2050U", priority := 1, auto_register := true
         added_date := 0 }, by decide, rfl⟩ (by decide),
   (C6_success_removes_failure_preserves
        (fun _ => AdapterResponse.rejected "Course is full") [] C6db "CSCI2050U").1 rfl⟩

/-! ### Claim C9 -/

theorem filter_idem' {α : Type} (p : α → Bool) (l : List α) :
    (l.filter p).filter p = l.filter p := by
  rw [List.filter_filter]
  exact List.filter_congr (fun x _ => Bool.and_self (p x))

theorem map_rowContent_filter (s : String) : ∀ l : List CourseRow,
    (l.filter (fun r => r.code != s)).map rowContent =
      (l.map rowContent).filter (fun x => x.code != s) := by
  intro l
  induction l with
  | nil => rfl
  | cons r t ih =>
    simp only [List.filter_cons, List.map_cons, rowContent]
    cases h : r.code != s <;> simp [h, ih, rowContent]

theorem contentList_upsert (c : Course) (db : DB) :
    contentList (coursesUpsert c db) = upsertContent c (contentList db) := by
  show ((db.courses.filter (fun r => r.code != c.code)) ++
      ([{ id := db.coursesNextId, code := c.code, name := c.name
          credits := c.credits, available_spots := c.available_spots
          total_spots := c.total_spots, instructor := c.instructor
          schedule := c.schedule, prerequisites := c.prerequisites
          status := c.status, last_updated := db.now }] : List CourseRow)).map rowContent =
    (db.courses.map rowContent).filter (fun x => x.code != c.code) ++ [c]
  rw [List.map_append, map_rowContent_filter]
  rfl

theorem contentList_save : ∀ (cs : List Course) (db : DB),
    contentList (save_courses_to_db cs db) = saveContent cs (contentList db) := by
  intro cs
  induction cs with
  | nil => intro db; rfl
  | cons c t ih =>
    intro db
    show contentList (save_courses_to_db t (coursesUpsert c db)) =
      saveContent t (upsertContent c (contentList db))
    rw [ih (coursesUpsert c db), contentList_upsert]

theorem saveContent_split : ∀ (cs l : List Course),
    saveContent cs l =
      l.filter (fun x => !codeIn x.code cs) ++ saveContent cs [] := by
  intro cs
  induction cs with
  | nil =>
    intro l
    show l = l.filter (fun x => !codeIn x.code []) ++ []
    rw [List.append_nil]
    exact (List.filter_eq_self.mpr (fun x _ => rfl)).symm
  | cons c t ih =>
    intro l
    show saveContent t (upsertContent c l) =
      l.filter (fun x => !codeIn x.code (c :: t)) ++ saveContent t (upsertContent c [])
    rw [ih (upsertContent c l), ih (upsertContent c [])]
    show (upsertContent c l).filter (fun x => !codeIn x.code t) ++ saveContent t [] =
      l.filter (fun x => !codeIn x.code (c :: t)) ++
        ((upsertContent c []).filter (fun x => !codeIn x.code t) ++ saveContent t [])
    unfold upsertContent
    simp only [List.filter_nil, List.nil_append]
    rw [List.filter_append, List.append_assoc]
    congr 1
    rw [List.filter_filter]
    apply List.filter_congr
    intro x _
    show (!codeIn x.code t && (x.code != c.code)) = !codeIn x.code (c :: t)
    have hcons : codeIn x.code (c :: t) = ((x.code == c.code) || codeIn x.code t) := by
      simp [codeIn, List.any_cons]
    rw [hcons]
    simp only [bne]
    cases x.code == c.code <;> cases codeIn x.code t <;> rfl

theorem mem_saveContent : ∀ (cs l : List Course) (x : Course),
    x ∈ saveContent cs l → x ∈ l ∨ codeIn x.code cs = true := by
  intro cs
  induction cs with
  | nil => intro l x h; exact Or.inl h
  | cons c t ih =>
    intro l x h
    have h2 := ih (upsertContent c l) x h
    rcases h2 with h2 | h2
    · unfold upsertContent at h2
      rcases List.mem_append.mp h2 with h3 | h3
      · exact Or.inl (List.mem_filter.mp h3).1
      · right
        rw [List.mem_singleton.mp h3]
        simp [codeIn, List.any_cons]
    · right
      unfold codeIn at h2 ⊢
      rw [List.any_cons, h2]
      simp

theorem codeIn_of_mem {c : Course} {cs : List Course} (h : c ∈ cs) :
    codeIn c.code cs = true := by
  unfold codeIn
  exact List.any_eq_true.mpr ⟨c, h, by simp⟩

theorem saveContent_idem (cs l : List Course) :
    saveContent cs (saveContent cs l) = saveContent cs l := by
  have hK : (saveContent cs []).filter (fun x => !codeIn x.code cs) = [] := by
    apply List.filter_eq_nil_iff.mpr
    intro x hx
    rcases mem_saveContent cs [] x hx with h | h
    · exact absurd h (List.not_mem_nil x)
    · simp [h]
  calc saveContent cs (saveContent cs l)
      = (saveContent cs l).filter (fun x => !codeIn x.code cs) ++ saveContent cs [] :=
        saveContent_split cs (saveContent cs l)
    _ = ((l.filter (fun x => !codeIn x.code cs) ++ saveContent cs []).filter
          (fun x => !codeIn x.code cs)) ++ saveContent cs [] := by
        rw [saveContent_split cs l]
    _ = ((l.filter (fun x => !codeIn x.code cs)).filter (fun x => !codeIn x.code cs) ++
          (saveContent cs []).filter (fun x => !codeIn x.code cs)) ++ saveContent cs [] := by
        rw [List.filter_append]
    _ = (l.filter (fun x => !codeIn x.code cs) ++ []) ++ saveContent cs [] := by
        rw [filter_idem', hK]
    _ = l.filter (fun x => !codeIn x.code cs) ++ saveContent cs [] := by
        rw [List.append_nil]
    _ = saveContent cs l := (saveContent_split cs l).symm

theorem find_course_eq_content (code : String) : ∀ rows : List CourseRow,
    find_course code rows = (rows.map rowContent).find? (fun x => x.code == code) := by
  intro rows
  induction rows with
  | nil => rfl
  | cons r t ih =>
    unfold find_course at ih ⊢
    by_cases h : (r.code == code) = true
    · rw [List.find?_cons_of_pos t h, List.map_cons,
        List.find?_cons_of_pos (t.map rowContent) h]
      rfl
    · rw [List.find?_cons_of_neg t h, List.map_cons,
        List.find?_cons_of_neg (t.map rowContent) h]
      exact ih

theorem check_eq_contentList (code : String) (db : DB) :
    check_course_availability code db =
      (contentList db).find? (fun x => x.code == code) :=
  find_course_eq_content code db.courses

theorem list_available_aux : ∀ rows : List CourseRow,
    (rows.filter (fun r => decide (0 < r.available_spots))).map
        (fun r => (r.code, r.name, r.available_spots, r.total_spots, r.status)) =
      ((rows.map rowContent).filter (fun c => decide (0 < c.available_spots))).map
        (fun c => (c.code, c.name, c.available_spots, c.total_spots, c.status)) := by
  intro rows
  induction rows with
  | nil => rfl
  | cons r t ih =>
    simp only [List.filter_cons, List.map_cons, rowContent]
    cases h : decide (0 < r.available_spots) <;> simp [h, ih, rowContent]

theorem list_available_eq_content (db : DB) :
    list_available_courses db =
      ((contentList db).filter (fun c => decide (0 < c.available_spots))).map
        (fun c => (c.code, c.name, c.available_spots, c.total_spots, c.status)) :=
  list_available_aux db.courses

theorem rows_filter_length_eq (s : String) : ∀ rows : List CourseRow,
    (rows.filter (fun r => r.code == s)).length =
      ((rows.map rowContent).filter (fun x => x.code == s)).length := by
  intro rows
  induction rows with
  | nil => rfl
  | cons r t ih =>
    simp only [List.filter_cons, List.map_cons, rowContent]
    cases h : r.code == s <;> simp [h, ih, rowContent]

theorem saveContent_nil_count (s : String) : ∀ cs : List Course,
    ((saveContent cs []).filter (fun x => x.code == s)).length =
      (if codeIn s cs = true then 1 else 0) := by
  intro cs
  induction cs with
  | nil => rfl
  | cons c t ih =>
    have h1 : saveContent (c :: t) [] =
        [c].filter (fun x => !codeIn x.code t) ++ saveContent t [] :=
      saveContent_split t [c]
    rw [h1, List.filter_append, List.length_append, ih]
    have hcons : codeIn s (c :: t) = ((s == c.code) || codeIn s t) := by
      simp [codeIn, List.any_cons]
    rw [hcons]
    cases hsc : s == c.code with
    | false =>
      have hcs : (c.code == s) = false := by
        cases hx : c.code == s
        · rfl
        · have hx2 : s = c.code := (beq_iff_eq.mp hx).symm
          rw [hx2] at hsc
          simp at hsc
      have h2 : (([c].filter (fun x => !codeIn x.code t)).filter
          (fun x => x.code == s)) = [] := by
        apply List.filter_eq_nil_iff.mpr
        intro x hx
        have hx1 : x = c := List.mem_singleton.mp (List.mem_filter.mp hx).1
        rw [hx1, hcs]
        simp
      rw [h2]
      simp
    | true =>
      have hcs : c.code = s := (beq_iff_eq.mp hsc).symm
      cases hct : codeIn s t with
      | true =>
        have h2 : ([c].filter (fun x => !codeIn x.code t)) = [] := by
          apply List.filter_eq_nil_iff.mpr
          intro x hx
          rw [List.mem_singleton.mp hx, hcs, hct]
          simp
        rw [h2]
        simp
      | false =>
        have h2 : ([c].filter (fun x => !codeIn x.code t)) = [c] := by
          apply List.filter_eq_self.mpr
          intro x hx
          rw [List.mem_singleton.mp hx, hcs, hct]
          rfl
        rw [h2]
        have h3 : ([c].filter (fun x => x.code == s)) = [c] := by
          apply List.filter_eq_self.mpr
          intro x hx
          rw [List.mem_singleton.mp hx, hcs]
          simp
        rw [h3]
        simp

/-- Claim C9: the snapshot-store upsert is idempotent at the level of
observable state — for every database and scraped course list, saving the
same list twice leaves the course store indistinguishable from saving it
once: identical content rows, identical `check_course_availability` answers
for every code, identical available-courses listing; and every saved course
occupies exactly one row keyed by its code (replaced, not duplicated).  The
raw table does differ (the surrogate `id` and the `last_updated` default
advance on each replace), but the program never reads those columns. -/
theorem C9_snapshot_upsert_idempotent (db : DB) (cs : List Course) :
    contentList (save_courses_to_db cs (save_courses_to_db cs db)) =
        contentList (save_courses_to_db cs db)
    ∧ (∀ code : String,
        check_course_availability code
            (save_courses_to_db cs (save_courses_to_db cs db)) =
          check_course_availability code (save_courses_to_db cs db))
    ∧ list_available_courses (save_courses_to_db cs (save_courses_to_db cs db)) =
        list_available_courses (save_courses_to_db cs db)
    ∧ (∀ c ∈ cs,
        ((save_courses_to_db cs db).courses.filter
          (fun r => r.code == c.code)).length = 1) := by
  have hmain : contentList (save_courses_to_db cs (save_courses_to_db cs db)) =
      contentList (save_courses_to_db cs db) := by
    rw [contentList_save, contentList_save, saveContent_idem]
  refine ⟨hmain, ?_, ?_, ?_⟩
  · intro code
    rw [check_eq_contentList, check_eq_contentList, hmain]
  · rw [list_available_eq_content, list_available_eq_content, hmain]
  · intro c hc
    have hcode : codeIn c.code cs = true := codeIn_of_mem hc
    rw [rows_filter_length_eq]
    have hcl : (save_courses_to_db cs db).courses.map rowContent =
        contentList (save_courses_to_db cs db) := rfl
    rw [hcl, contentList_save, saveContent_split, List.filter_append,
      List.length_append]
    have hA : (((contentList db).filter (fun x => !codeIn x.code cs)).filter
        (fun x => x.code == c.code)) = [] := by
      apply List.filter_eq_nil_iff.mpr
      intro x hx
      have hx2 := (List.mem_filter.mp hx).2
      intro hxc
      rw [beq_iff_eq.mp hxc, hcode] at hx2
      simp at hx2
    rw [hA, saveContent_nil_count c.code cs, hcode]
    simp

/-- Claim C9, witness: the per-code uniqueness conjunct at a fresh database
and a single scraped course. -/
theorem C9_snapshot_upsert_idempotent_witness :
    C9course ∈ [C9course] ∧
      ((save_courses_to_db [C9course] setup_database).courses.filter
        (fun r => r.code == C9course.code)).length = 1 :=
  ⟨List.mem_singleton.mpr rfl,
   (C9_snapshot_upsert_idempotent setup_database [C9course]).2.2.2 C9course
     (List.mem_singleton.mpr rfl)⟩

end RegBot
